import Mathlib

/-!
Shallow embedding of `src/vomitorium.js` (the file-selection and traversal
engine of the vomitorium CLI).

Paths are modelled as lists of components of an absolute POSIX path
(`/a/b/c` is `["a","b","c"]`).  The filesystem seen by the traversal is an
explicit tree; a file whose `readFile` fails carries `none` as content, a
directory whose `readdir` fails carries `none` as listing.  `fs.appendFile`
failures are injected through an oracle `appendOk : Nat → Bool` consulted at
the n-th append attempt of the run.  The traversal returns the ordered list
of records that were successfully appended to the output artifact, the
diagnostic (console) lines, and ghost logs of every `readFile` attempt and
every directory recursed into.
-/

/-- A path: the components of an absolute path, root first. -/
abbrev FsPath := List String

/-- Boolean test that `p` begins the list `l` (kernel-computable). -/
def listPre (p l : List Char) : Bool :=
  match p, l with
  | [], _ => true
  | _ :: _, [] => false
  | a :: as, b :: bs => a == b && listPre as bs

/-- Boolean substring search on char lists (kernel-computable). -/
def listSub (p : List Char) : List Char → Bool
  | [] => p.isEmpty
  | c :: rest => listPre p (c :: rest) || listSub p rest

/-- JS `String.prototype.includes`: raw, case-sensitive substring
containment. -/
def strContains (s pat : String) : Bool :=
  listSub pat.data s.data

/-- The string form of an absolute path, as Node's `path.join`/`path.resolve`
produce it (`"/" ++ components joined by "/"`). -/
def pathToString (p : FsPath) : String :=
  "/" ++ String.intercalate "/" p

/-- Node `path.basename` on an absolute path: the last component
(`""` for the root). -/
def basename (p : FsPath) : String :=
  p.getLast?.getD ""

/-- Drop the longest common prefix of two component lists (helper for
`pathRelative`). -/
def dropCommonPrefix : List String → List String → List String × List String
  | a :: as, b :: bs =>
    if a = b then dropCommonPrefix as bs else (a :: as, b :: bs)
  | as, bs => (as, bs)

/-- Node `path.relative(from, to)` for absolute normalized POSIX paths:
strip the common prefix, one `".."` per remaining `from` component, then the
remaining `to` components, joined with `"/"`. -/
def pathRelative (cwd p : FsPath) : String :=
  let ft := dropCommonPrefix cwd p
  String.intercalate "/" (ft.1.map (fun _ => "..") ++ ft.2)

/-- The suffix of a name starting at its last dot, if any. -/
def extAfterLastDot : List Char → Option (List Char)
  | [] => none
  | c :: rest =>
    match extAfterLastDot rest with
    | some e => some e
    | none => if c = '.' then some (c :: rest) else none

/-- Node `path.extname` on a regular entry name (no separators, not `"."` or
`".."`): the suffix from the last dot, except that a leading dot (a hidden
file like `.gitignore`) does not start an extension. -/
def extname (name : String) : String :=
  match name.data with
  | [] => ""
  | c :: rest =>
    if c = '.' then
      match extAfterLastDot rest with
      | some e => String.mk e
      | none => ""
    else
      match extAfterLastDot (c :: rest) with
      | some e => String.mk e
      | none => ""

/-- The resolved configuration consumed by the engine (the merged
`includeDirs` / `excludePatterns` / `includeExtensions` / `showExcluded` /
`showSkipped` / `outputFile` values of `src/vomitorium.js`). -/
structure Config where
  includeDirs : List String
  excludePatterns : List String
  includeExtensions : List String
  showExcluded : Bool
  showSkipped : Bool
  outputFile : String
deriving DecidableEq, Repr

/-- Function `isExcluded(filePath)` of `src/vomitorium.js` (lines 69-80): some
exclude pattern is a substring of the path relative to `process.cwd()`, or
equals the basename exactly. -/
def isExcluded (cfg : Config) (cwd : FsPath) (filePath : FsPath) : Bool :=
  cfg.excludePatterns.any fun pattern =>
    strContains (pathRelative cwd filePath) pattern || basename filePath == pattern

/-- The directory-recursion test of `traverseDirectory` (line 103):
`includeDirs.length === 0 || includeDirs.some(d => fullPath.includes(d))`,
where `fullPath` is the joined absolute path string. -/
def shouldRecurse (cfg : Config) (fullPath : FsPath) : Bool :=
  cfg.includeDirs.isEmpty || cfg.includeDirs.any fun d => strContains (pathToString fullPath) d

/-- A filesystem entry as the traversal sees it.  `file name none` is a file
whose `readFile` rejects; `dir name none` is a directory whose `readdir`
rejects. -/
inductive Entry where
  | file (name : String) (content : Option String)
  | dir (name : String) (listing : Option (List Entry))

/-- The entry's name (`file.name` in the source's loop). -/
def Entry.name : Entry → String
  | .file n _ => n
  | .dir n _ => n

/-- A record successfully appended to the output artifact:
either a processed file's content or a placeholder with a reason text. -/
inductive Record where
  | processed (p : FsPath) (content : String)
  | placeholder (p : FsPath) (reason : String)
deriving DecidableEq, Repr

/-- The path a record is about. -/
def Record.path : Record → FsPath
  | .processed p _ => p
  | .placeholder p _ => p

/-- Whether the record is an `(Excluded)` placeholder. -/
def Record.isExcludedRec : Record → Bool
  | .placeholder _ reason => reason == "Excluded"
  | _ => false

/-- Whether the record is a `(Skipped (non-matching extension))` placeholder. -/
def Record.isSkippedRec : Record → Bool
  | .placeholder _ reason => reason == "Skipped (non-matching extension)"
  | _ => false

/-- The exact bytes `fs.appendFile` receives for a record
(lines 135 and 151 of the source). -/
def renderRecord (cwd : FsPath) : Record → String
  | .processed p content =>
      "\n\n--- File: " ++ pathRelative cwd p ++ " ---\n\n" ++ content ++ "\n"
  | .placeholder p reason =>
      "\n\n--- File: " ++ pathRelative cwd p ++ " ---\n(" ++ reason ++ ")\n"

/-- A diagnostic (console) line: the `console.log` progress lines and the
`console.error` lines of `processFile` and `traverseDirectory`. -/
inductive Diag where
  | processedLine (rel : String)
  | skippedLine (rel : String) (reason : String)
  | errorFile (p : FsPath)
  | errorDir (p : FsPath)
deriving DecidableEq, Repr

/-- What one (sub)traversal produced: appended records, diagnostic lines,
ghost logs of `readFile` attempts and of directories recursed into, the
append-attempt counter after it, and `ok = false` when an exception escaped
it (only a failed append inside `logSkippedFile` can do that). -/
structure TravOut where
  recs : List Record
  diags : List Diag
  reads : List FsPath
  dirs : List FsPath
  nOps : Nat
  ok : Bool
deriving DecidableEq, Repr

/-- The output of a traversal step that did nothing. -/
def TravOut.empty (n : Nat) : TravOut := ⟨[], [], [], [], n, true⟩

/-- Sequential composition: `b` is assumed to have started at `a.nOps`. -/
def TravOut.comb (a b : TravOut) : TravOut :=
  ⟨a.recs ++ b.recs, a.diags ++ b.diags, a.reads ++ b.reads, a.dirs ++ b.dirs, b.nOps, b.ok⟩

/-- Function `logSkippedFile(filePath, out, reason)` (lines 149-153): append a
placeholder record then `console.log` a skip line.  It has no try/catch, so a
failed append escapes (`ok = false`). -/
def logSkippedFile (cwd : FsPath) (appendOk : Nat → Bool) (filePath : FsPath)
    (reason : String) (n : Nat) : TravOut :=
  if appendOk n then
    ⟨[.placeholder filePath reason], [.skippedLine (pathRelative cwd filePath) reason],
      [], [], n + 1, true⟩
  else ⟨[], [], [], [], n + 1, false⟩

/-- Function `processFile(filePath, out)` (lines 130-140): read the file, append a
processed record, `console.log` a progress line; any error is caught locally
and logged with `console.error`, so it never escapes (`ok = true` always). -/
def processFile (cwd : FsPath) (appendOk : Nat → Bool) (filePath : FsPath)
    (content : Option String) (n : Nat) : TravOut :=
  match content with
  | none => ⟨[], [.errorFile filePath], [filePath], [], n, true⟩
  | some c =>
    if appendOk n then
      ⟨[.processed filePath c], [.processedLine (pathRelative cwd filePath)],
        [filePath], [], n + 1, true⟩
    else ⟨[], [.errorFile filePath], [filePath], [], n + 1, true⟩

mutual

/-- Function `traverseDirectory(dirPath, out)` (lines 88-122): list the directory and
run the entry loop inside a try/catch.  A `readdir` failure, or an exception
escaping the loop (a failed placeholder append), is caught here: it is logged
with `console.error` and the call returns normally (`ok = true`). -/
def traverseDirectory (cfg : Config) (cwd : FsPath) (appendOk : Nat → Bool)
    (dirPath : FsPath) (listing : Option (List Entry)) (n : Nat) : TravOut :=
  match listing with
  | none => ⟨[], [.errorDir dirPath], [], [dirPath], n, true⟩
  | some es =>
    let out := traverseEntries cfg cwd appendOk dirPath es n
    let out := { out with dirs := dirPath :: out.dirs }
    if out.ok then out
    else { out with diags := out.diags ++ [.errorDir dirPath], ok := true }
termination_by sizeOf listing

/-- The `for (const file of files)` loop of `traverseDirectory` (lines
92-118): per entry, the exclusion check first (placeholder when
`showExcluded`), then directory recursion gated by the `includeDirs` test,
or the extension filter followed by `processFile`.  An append failure inside
`logSkippedFile` escapes the loop (`ok = false`), abandoning the remaining
entries. -/
def traverseEntries (cfg : Config) (cwd : FsPath) (appendOk : Nat → Bool)
    (dirPath : FsPath) : List Entry → Nat → TravOut
  | [], n => TravOut.empty n
  | .file name content :: rest, n =>
    let fullPath := dirPath ++ [name]
    if isExcluded cfg cwd fullPath then
      if cfg.showExcluded then
        let out := logSkippedFile cwd appendOk fullPath "Excluded" n
        if out.ok then out.comb (traverseEntries cfg cwd appendOk dirPath rest out.nOps)
        else out
      else traverseEntries cfg cwd appendOk dirPath rest n
    else
      if cfg.includeExtensions.contains (extname name) then
        let out := processFile cwd appendOk fullPath content n
        out.comb (traverseEntries cfg cwd appendOk dirPath rest out.nOps)
      else
        if cfg.showSkipped then
          let out := logSkippedFile cwd appendOk fullPath "Skipped (non-matching extension)" n
          if out.ok then out.comb (traverseEntries cfg cwd appendOk dirPath rest out.nOps)
          else out
        else traverseEntries cfg cwd appendOk dirPath rest n
  | .dir name listing :: rest, n =>
    let fullPath := dirPath ++ [name]
    if isExcluded cfg cwd fullPath then
      if cfg.showExcluded then
        let out := logSkippedFile cwd appendOk fullPath "Excluded" n
        if out.ok then out.comb (traverseEntries cfg cwd appendOk dirPath rest out.nOps)
        else out
      else traverseEntries cfg cwd appendOk dirPath rest n
    else
      if shouldRecurse cfg fullPath then
        let out := traverseDirectory cfg cwd appendOk fullPath listing n
        out.comb (traverseEntries cfg cwd appendOk dirPath rest out.nOps)
      else traverseEntries cfg cwd appendOk dirPath rest n
termination_by es _ => sizeOf es

end

/-- The outcome of one whole run of the program. -/
structure RunResult where
  exitCode : Nat
  outPath : Option FsPath
  outFile : Option String
  trav : Option TravOut
deriving DecidableEq, Repr

/-- Function `main()` (lines 159-176): resolve the scan root, compute the output path
as `path.join(process.cwd(), outputFile)`, check root accessibility
(`fs.access`) — on failure `process.exit(1)` with the output file untouched —
then truncate the output file (`fs.writeFile(outputFilePath, '')`) and
traverse.  `rootFs = none` models a missing/inaccessible scan root;
`some listing` gives the root directory's listing (itself `none` when the
root's `readdir` fails).  `prev` is the output file's content before the run
(`none` if it did not exist); the returned `outFile` is its content after. -/
def mainRun (cfg : Config) (cwd : FsPath) (appendOk : Nat → Bool) (rootPath : FsPath)
    (rootFs : Option (Option (List Entry))) (prev : Option String) : RunResult :=
  match rootFs with
  | none => ⟨1, none, prev, none⟩
  | some listing =>
    let out := traverseDirectory cfg cwd appendOk rootPath listing 0
    ⟨0, some (cwd ++ [cfg.outputFile]),
      some (String.join (out.recs.map (renderRecord cwd))), some out⟩


/-- Every prefix of `p` strictly longer than `base` is not excluded. -/
def CleanBelow (cfg : Config) (cwd base p : FsPath) : Prop :=
  ∀ q, q <+: p → base.length < q.length → isExcluded cfg cwd q = false

/-- Every prefix of `p` strictly between `base` and `p` is not excluded. -/
def CleanStrictBelow (cfg : Config) (cwd base p : FsPath) : Prop :=
  ∀ q, q <+: p → base.length < q.length → q.length < p.length → isExcluded cfg cwd q = false

/-- What the traversal invariant guarantees about a single emitted record,
relative to the directory `base` whose entries are being looped over. -/
def RecordSound (cfg : Config) (cwd base : FsPath) : Record → Prop
  | .processed p _ =>
      base <+: p ∧ base.length < p.length ∧ CleanBelow cfg cwd base p ∧
        cfg.includeExtensions.contains (extname (basename p)) = true
  | .placeholder p reason =>
      base <+: p ∧ base.length < p.length ∧
        ((reason = "Excluded" ∧ isExcluded cfg cwd p = true ∧ cfg.showExcluded = true ∧
            CleanStrictBelow cfg cwd base p) ∨
         (reason = "Skipped (non-matching extension)" ∧ cfg.showSkipped = true ∧
            CleanBelow cfg cwd base p ∧
            cfg.includeExtensions.contains (extname (basename p)) = false))

/-- Soundness of everything the entry loop over directory `base` emitted. -/
def EntriesSound (cfg : Config) (cwd base : FsPath) (out : TravOut) : Prop :=
  (∀ r ∈ out.recs, RecordSound cfg cwd base r) ∧
  (∀ q ∈ out.dirs, base <+: q ∧ base.length < q.length ∧ CleanBelow cfg cwd base q ∧
      shouldRecurse cfg q = true) ∧
  (∀ p ∈ out.reads, base <+: p ∧ base.length < p.length ∧ CleanBelow cfg cwd base p ∧
      cfg.includeExtensions.contains (extname (basename p)) = true)

/-- Soundness of a full `traverseDirectory dirPath` call: as `EntriesSound`,
except that `dirPath` itself is also logged as recursed-into. -/
def DirSound (cfg : Config) (cwd dirPath : FsPath) (out : TravOut) : Prop :=
  (∀ r ∈ out.recs, RecordSound cfg cwd dirPath r) ∧
  (∀ q ∈ out.dirs, q = dirPath ∨ (dirPath <+: q ∧ dirPath.length < q.length ∧
      CleanBelow cfg cwd dirPath q ∧ shouldRecurse cfg q = true)) ∧
  (∀ p ∈ out.reads, dirPath <+: p ∧ dirPath.length < p.length ∧ CleanBelow cfg cwd dirPath p ∧
      cfg.includeExtensions.contains (extname (basename p)) = true)

/-- What the loop body of `traverseDirectory` contributes for one entry
(matching the branch structure of lines 95-117), assuming no exception
escapes it. -/
def stepEntry (cfg : Config) (cwd : FsPath) (appendOk : Nat → Bool)
    (dirPath : FsPath) (e : Entry) (n : Nat) : TravOut :=
  let fullPath := dirPath ++ [e.name]
  if isExcluded cfg cwd fullPath then
    if cfg.showExcluded then logSkippedFile cwd appendOk fullPath "Excluded" n
    else TravOut.empty n
  else
    match e with
    | .file name content =>
      if cfg.includeExtensions.contains (extname name) then
        processFile cwd appendOk fullPath content n
      else
        if cfg.showSkipped then
          logSkippedFile cwd appendOk fullPath "Skipped (non-matching extension)" n
        else TravOut.empty n
    | .dir _ listing =>
      if shouldRecurse cfg fullPath then
        traverseDirectory cfg cwd appendOk fullPath listing n
      else TravOut.empty n

/-! ### Substring matching, characterised -/

theorem listPre_iff (p l : List Char) : listPre p l = true ↔ ∃ t, p ++ t = l := by
  induction p generalizing l with
  | nil => simp [listPre]
  | cons a as ih =>
    cases l with
    | nil => simp [listPre]
    | cons b bs =>
      simp only [listPre, Bool.and_eq_true, beq_iff_eq, ih, List.cons_append, List.cons.injEq]
      constructor
      · rintro ⟨rfl, t, rfl⟩; exact ⟨t, rfl, rfl⟩
      · rintro ⟨t, rfl, rfl⟩; exact ⟨rfl, t, rfl⟩

theorem listSub_iff (p s : List Char) : listSub p s = true ↔ ∃ l r, l ++ p ++ r = s := by
  induction s with
  | nil =>
    simp only [listSub, List.isEmpty_iff]
    constructor
    · rintro rfl; exact ⟨[], [], rfl⟩
    · rintro ⟨l, r, h⟩
      rcases List.append_eq_nil.mp h with ⟨h1, h2⟩
      exact (List.append_eq_nil.mp h1).2
  | cons c cs ih =>
    simp only [listSub, Bool.or_eq_true, listPre_iff, ih]
    constructor
    · rintro (⟨t, ht⟩ | ⟨l, r, rfl⟩)
      · exact ⟨[], t, by simpa using ht⟩
      · exact ⟨c :: l, r, rfl⟩
    · rintro ⟨l, r, h⟩
      cases l with
      | nil => exact Or.inl ⟨r, by simpa using h⟩
      | cons x xs =>
        rw [List.cons_append, List.cons_append, List.cons.injEq] at h
        exact Or.inr ⟨xs, r, h.2⟩

/-- Predicate `strContains s pat` holds exactly when `pat` occurs literally inside `s`. -/
theorem strContains_iff (s pat : String) :
    strContains s pat = true ↔ ∃ l r : String, s = l ++ pat ++ r := by
  rw [strContains, listSub_iff]
  constructor
  · rintro ⟨l, r, h⟩
    refine ⟨String.mk l, String.mk r, ?_⟩
    apply String.ext
    simpa [String.data_append] using h.symm
  · rintro ⟨l, r, rfl⟩
    exact ⟨l.data, r.data, by simp [String.data_append]⟩

/-- C2: `isExcluded(p)` returns true iff the path of `p` relative to the
process's working directory contains some exclude pattern as a literal
substring, or the basename of `p` is exactly equal to some exclude pattern —
raw string matching with no case-folding and no glob semantics. -/
theorem isExcluded_characterisation (cfg : Config) (cwd p : FsPath) :
    isExcluded cfg cwd p = true ↔
      ∃ pat ∈ cfg.excludePatterns,
        (∃ l r : String, pathRelative cwd p = l ++ pat ++ r) ∨ basename p = pat := by
  simp only [isExcluded, List.any_eq_true, Bool.or_eq_true, beq_iff_eq, strContains_iff]

theorem cleanBelow_singleton {cfg : Config} {cwd base : FsPath} {nm : String}
    (hex : isExcluded cfg cwd (base ++ [nm]) = false) :
    CleanBelow cfg cwd base (base ++ [nm]) := by
  intro q hq hlen
  have hle : q.length ≤ (base ++ [nm]).length := hq.length_le
  have : q = base ++ [nm] := by
    apply List.IsPrefix.eq_of_length hq
    simp only [List.length_append, List.length_cons, List.length_nil] at hle ⊢
    omega
  rw [this]; exact hex

theorem cleanStrictBelow_singleton {cfg : Config} {cwd base : FsPath} {nm : String} :
    CleanStrictBelow cfg cwd base (base ++ [nm]) := by
  intro q hq hlen hlt
  simp only [List.length_append, List.length_cons, List.length_nil] at hlt
  omega

theorem cleanBelow_cons {cfg : Config} {cwd base p : FsPath} {nm : String}
    (hex : isExcluded cfg cwd (base ++ [nm]) = false)
    (hpre : base ++ [nm] <+: p)
    (h : CleanBelow cfg cwd (base ++ [nm]) p) : CleanBelow cfg cwd base p := by
  intro q hq hlen
  by_cases hle : q.length ≤ (base ++ [nm]).length
  · have hqp : q <+: base ++ [nm] := List.prefix_of_prefix_length_le hq hpre hle
    have : q = base ++ [nm] := by
      apply List.IsPrefix.eq_of_length hqp
      simp only [List.length_append, List.length_cons, List.length_nil] at hle ⊢
      omega
    rw [this]; exact hex
  · exact h q hq (by simp only [List.length_append, List.length_cons, List.length_nil] at hle ⊢; omega)

theorem cleanStrictBelow_cons {cfg : Config} {cwd base p : FsPath} {nm : String}
    (hex : isExcluded cfg cwd (base ++ [nm]) = false)
    (hpre : base ++ [nm] <+: p)
    (h : CleanStrictBelow cfg cwd (base ++ [nm]) p) : CleanStrictBelow cfg cwd base p := by
  intro q hq hlen hlt
  by_cases hle : q.length ≤ (base ++ [nm]).length
  · have hqp : q <+: base ++ [nm] := List.prefix_of_prefix_length_le hq hpre hle
    have : q = base ++ [nm] := by
      apply List.IsPrefix.eq_of_length hqp
      simp only [List.length_append, List.length_cons, List.length_nil] at hle ⊢
      omega
    rw [this]; exact hex
  · exact h q hq (by simp only [List.length_append, List.length_cons, List.length_nil] at hle ⊢; omega) hlt

theorem recordSound_lift {cfg : Config} {cwd base : FsPath} {nm : String} {r : Record}
    (hex : isExcluded cfg cwd (base ++ [nm]) = false)
    (h : RecordSound cfg cwd (base ++ [nm]) r) : RecordSound cfg cwd base r := by
  have hpre : base <+: base ++ [nm] := List.prefix_append base [nm]
  cases r with
  | processed p c =>
    obtain ⟨h1, h2, h3, h4⟩ := h
    exact ⟨hpre.trans h1, by simp only [List.length_append, List.length_cons,
      List.length_nil] at h2 ⊢; omega, cleanBelow_cons hex h1 h3, h4⟩
  | placeholder p reason =>
    obtain ⟨h1, h2, h3⟩ := h
    refine ⟨hpre.trans h1, by simp only [List.length_append, List.length_cons,
      List.length_nil] at h2 ⊢; omega, ?_⟩
    rcases h3 with ⟨hr, he, hs, hc⟩ | ⟨hr, hs, hc, hext⟩
    · exact Or.inl ⟨hr, he, hs, cleanStrictBelow_cons hex h1 hc⟩
    · exact Or.inr ⟨hr, hs, cleanBelow_cons hex h1 hc, hext⟩

theorem entriesSound_comb {cfg : Config} {cwd base : FsPath} {a b : TravOut}
    (ha : EntriesSound cfg cwd base a) (hb : EntriesSound cfg cwd base b) :
    EntriesSound cfg cwd base (a.comb b) := by
  obtain ⟨ha1, ha2, ha3⟩ := ha
  obtain ⟨hb1, hb2, hb3⟩ := hb
  refine ⟨?_, ?_, ?_⟩
  · intro r hr
    rcases List.mem_append.mp hr with h | h
    · exact ha1 r h
    · exact hb1 r h
  · intro q hq
    rcases List.mem_append.mp hq with h | h
    · exact ha2 q h
    · exact hb2 q h
  · intro p hp
    rcases List.mem_append.mp hp with h | h
    · exact ha3 p h
    · exact hb3 p h

theorem dirSound_lift {cfg : Config} {cwd base : FsPath} {nm : String} {out : TravOut}
    (hex : isExcluded cfg cwd (base ++ [nm]) = false)
    (hsr : shouldRecurse cfg (base ++ [nm]) = true)
    (h : DirSound cfg cwd (base ++ [nm]) out) : EntriesSound cfg cwd base out := by
  obtain ⟨h1, h2, h3⟩ := h
  have hpre : base <+: base ++ [nm] := List.prefix_append base [nm]
  refine ⟨fun r hr => recordSound_lift hex (h1 r hr), ?_, ?_⟩
  · intro q hq
    rcases h2 q hq with rfl | ⟨hq1, hq2, hq3, hq4⟩
    · exact ⟨hpre, by simp, cleanBelow_singleton hex, hsr⟩
    · exact ⟨hpre.trans hq1, by simp only [List.length_append, List.length_cons,
        List.length_nil] at hq2 ⊢; omega, cleanBelow_cons hex hq1 hq3, hq4⟩
  · intro p hp
    obtain ⟨hp1, hp2, hp3, hp4⟩ := h3 p hp
    exact ⟨hpre.trans hp1, by simp only [List.length_append, List.length_cons,
      List.length_nil] at hp2 ⊢; omega, cleanBelow_cons hex hp1 hp3, hp4⟩

theorem basename_concat (l : List String) (a : String) : basename (l ++ [a]) = a := by
  simp [basename]

theorem entriesSound_logExcluded {cfg : Config} {cwd base : FsPath} {appendOk : Nat → Bool}
    {nm : String} {n : Nat}
    (hex : isExcluded cfg cwd (base ++ [nm]) = true) (hshow : cfg.showExcluded = true) :
    EntriesSound cfg cwd base (logSkippedFile cwd appendOk (base ++ [nm]) "Excluded" n) := by
  rw [logSkippedFile]
  by_cases hA : appendOk n = true
  · rw [if_pos hA]
    refine ⟨?_, by simp, by simp⟩
    intro r hr
    rw [List.mem_singleton] at hr
    subst hr
    exact ⟨List.prefix_append base [nm], by simp,
      Or.inl ⟨rfl, hex, hshow, cleanStrictBelow_singleton⟩⟩
  · rw [if_neg hA]
    exact ⟨by simp, by simp, by simp⟩

theorem entriesSound_logSkipped {cfg : Config} {cwd base : FsPath} {appendOk : Nat → Bool}
    {nm : String} {n : Nat}
    (hex : isExcluded cfg cwd (base ++ [nm]) = false) (hshow : cfg.showSkipped = true)
    (hext : cfg.includeExtensions.contains (extname nm) = false) :
    EntriesSound cfg cwd base
      (logSkippedFile cwd appendOk (base ++ [nm]) "Skipped (non-matching extension)" n) := by
  rw [logSkippedFile]
  by_cases hA : appendOk n = true
  · rw [if_pos hA]
    refine ⟨?_, by simp, by simp⟩
    intro r hr
    rw [List.mem_singleton] at hr
    subst hr
    refine ⟨List.prefix_append base [nm], by simp,
      Or.inr ⟨rfl, hshow, cleanBelow_singleton hex, ?_⟩⟩
    rwa [basename_concat]
  · rw [if_neg hA]
    exact ⟨by simp, by simp, by simp⟩

theorem entriesSound_processFile {cfg : Config} {cwd base : FsPath} {appendOk : Nat → Bool}
    {nm : String} {content : Option String} {n : Nat}
    (hex : isExcluded cfg cwd (base ++ [nm]) = false)
    (hext : cfg.includeExtensions.contains (extname nm) = true) :
    EntriesSound cfg cwd base (processFile cwd appendOk (base ++ [nm]) content n) := by
  have hread : base <+: base ++ [nm] ∧ base.length < (base ++ [nm]).length ∧
      CleanBelow cfg cwd base (base ++ [nm]) ∧
      cfg.includeExtensions.contains (extname (basename (base ++ [nm]))) = true :=
    ⟨List.prefix_append base [nm], by simp, cleanBelow_singleton hex, by rwa [basename_concat]⟩
  rw [processFile.eq_def]
  cases content with
  | none =>
    dsimp only
    refine ⟨by simp, by simp, ?_⟩
    intro p hp
    rw [List.mem_singleton] at hp
    subst hp
    exact hread
  | some c =>
    dsimp only
    by_cases hA : appendOk n = true
    · rw [if_pos hA]
      refine ⟨?_, by simp, ?_⟩
      · intro r hr
        rw [List.mem_singleton] at hr
        subst hr
        exact ⟨hread.1, hread.2.1, hread.2.2.1, hread.2.2.2⟩
      · intro p hp
        rw [List.mem_singleton] at hp
        subst hp
        exact hread
    · rw [if_neg hA]
      refine ⟨by simp, by simp, ?_⟩
      intro p hp
      rw [List.mem_singleton] at hp
      subst hp
      exact hread

theorem entries_sound (cfg : Config) (cwd : FsPath) (appendOk : Nat → Bool) :
    ∀ dirPath es n,
      EntriesSound cfg cwd dirPath (traverseEntries cfg cwd appendOk dirPath es n) := by
  refine traverseEntries.induct cfg cwd appendOk
    (fun dp listing n => DirSound cfg cwd dp (traverseDirectory cfg cwd appendOk dp listing n))
    (fun dp es n => EntriesSound cfg cwd dp (traverseEntries cfg cwd appendOk dp es n))
    ?_ ?_ ?_ ?_ ?_ ?_ ?_ ?_ ?_ ?_ ?_ ?_ ?_ ?_ ?_ ?_
  -- traverseDirectory, readdir failure
  · intro dirPath n
    rw [traverseDirectory.eq_def]; dsimp only
    exact ⟨by simp, by simp, by simp⟩
  -- traverseDirectory, loop finished normally
  · intro dirPath n es
    dsimp only
    intro hok ih
    rw [traverseDirectory.eq_def]; dsimp only
    rw [if_pos hok]
    obtain ⟨ih1, ih2, ih3⟩ := ih
    refine ⟨ih1, ?_, ih3⟩
    intro q hq
    rcases List.mem_cons.mp hq with rfl | h
    · exact Or.inl rfl
    · exact Or.inr (ih2 q h)
  -- traverseDirectory, loop escaped (placeholder append failure)
  · intro dirPath n es
    dsimp only
    intro hok ih
    rw [traverseDirectory.eq_def]; dsimp only
    rw [if_neg hok]
    obtain ⟨ih1, ih2, ih3⟩ := ih
    refine ⟨ih1, ?_, ih3⟩
    intro q hq
    rcases List.mem_cons.mp hq with rfl | h
    · exact Or.inl rfl
    · exact Or.inr (ih2 q h)
  -- empty listing
  · intro dirPath n
    rw [traverseEntries.eq_def]; dsimp only
    exact ⟨by simp [TravOut.empty], by simp [TravOut.empty], by simp [TravOut.empty]⟩
  -- file, excluded, shown, append succeeded
  · intro dirPath name content rest n
    dsimp only
    intro hex hshow hok ih
    rw [traverseEntries.eq_def]; dsimp only
    rw [if_pos hex, if_pos hshow, if_pos hok]
    exact entriesSound_comb (entriesSound_logExcluded hex hshow) ih
  -- file, excluded, shown, append failed
  · intro dirPath name content rest n
    dsimp only
    intro hex hshow hok
    rw [traverseEntries.eq_def]; dsimp only
    rw [if_pos hex, if_pos hshow, if_neg hok]
    exact entriesSound_logExcluded hex hshow
  -- file, excluded, not shown
  · intro dirPath name content rest n
    dsimp only
    intro hex hshow ih
    rw [traverseEntries.eq_def]; dsimp only
    rw [if_pos hex, if_neg hshow]
    exact ih
  -- file, not excluded, matching extension
  · intro dirPath name content rest n
    dsimp only
    intro hex hext ih
    rw [traverseEntries.eq_def]; dsimp only
    rw [if_neg hex, if_pos hext]
    exact entriesSound_comb
      (entriesSound_processFile (Bool.not_eq_true _ ▸ hex) hext) ih
  -- file, not excluded, non-matching extension, shown, append succeeded
  · intro dirPath name content rest n
    dsimp only
    intro hex hext hshow hok ih
    rw [traverseEntries.eq_def]; dsimp only
    rw [if_neg hex, if_neg hext, if_pos hshow, if_pos hok]
    exact entriesSound_comb
      (entriesSound_logSkipped (Bool.not_eq_true _ ▸ hex) hshow (Bool.not_eq_true _ ▸ hext)) ih
  -- file, not excluded, non-matching extension, shown, append failed
  · intro dirPath name content rest n
    dsimp only
    intro hex hext hshow hok
    rw [traverseEntries.eq_def]; dsimp only
    rw [if_neg hex, if_neg hext, if_pos hshow, if_neg hok]
    exact entriesSound_logSkipped (Bool.not_eq_true _ ▸ hex) hshow (Bool.not_eq_true _ ▸ hext)
  -- file, not excluded, non-matching extension, not shown
  · intro dirPath name content rest n
    dsimp only
    intro hex hext hshow ih
    rw [traverseEntries.eq_def]; dsimp only
    rw [if_neg hex, if_neg hext, if_neg hshow]
    exact ih
  -- dir, excluded, shown, append succeeded
  · intro dirPath name listing rest n
    dsimp only
    intro hex hshow hok ih
    rw [traverseEntries.eq_def]; dsimp only
    rw [if_pos hex, if_pos hshow, if_pos hok]
    exact entriesSound_comb (entriesSound_logExcluded hex hshow) ih
  -- dir, excluded, shown, append failed
  · intro dirPath name listing rest n
    dsimp only
    intro hex hshow hok
    rw [traverseEntries.eq_def]; dsimp only
    rw [if_pos hex, if_pos hshow, if_neg hok]
    exact entriesSound_logExcluded hex hshow
  -- dir, excluded, not shown
  · intro dirPath name listing rest n
    dsimp only
    intro hex hshow ih
    rw [traverseEntries.eq_def]; dsimp only
    rw [if_pos hex, if_neg hshow]
    exact ih
  -- dir, not excluded, recursed into
  · intro dirPath name listing rest n
    dsimp only
    intro hex hsr ihdir ihdir2 ih
    rw [traverseEntries.eq_def]; dsimp only
    rw [if_neg hex, if_pos hsr]
    exact entriesSound_comb (dirSound_lift (Bool.not_eq_true _ ▸ hex) hsr ihdir2) ih
  -- dir, not excluded, rejected by includeDirs
  · intro dirPath name listing rest n
    dsimp only
    intro hex hsr ih
    rw [traverseEntries.eq_def]; dsimp only
    rw [if_neg hex, if_neg hsr]
    exact ih

theorem dir_sound (cfg : Config) (cwd : FsPath) (appendOk : Nat → Bool)
    (dirPath : FsPath) (listing : Option (List Entry)) (n : Nat) :
    DirSound cfg cwd dirPath (traverseDirectory cfg cwd appendOk dirPath listing n) := by
  rw [traverseDirectory.eq_def]; dsimp only
  cases listing with
  | none => exact ⟨by simp, by simp, by simp⟩
  | some es =>
    dsimp only
    obtain ⟨ih1, ih2, ih3⟩ := entries_sound cfg cwd appendOk dirPath es n
    by_cases hok : (traverseEntries cfg cwd appendOk dirPath es n).ok = true
    · rw [if_pos hok]
      refine ⟨ih1, ?_, ih3⟩
      intro q hq
      rcases List.mem_cons.mp hq with rfl | h
      · exact Or.inl rfl
      · exact Or.inr (ih2 q h)
    · rw [if_neg hok]
      refine ⟨ih1, ?_, ih3⟩
      intro q hq
      rcases List.mem_cons.mp hq with rfl | h
      · exact Or.inl rfl
      · exact Or.inr (ih2 q h)

theorem comb_empty_left (n : Nat) (out : TravOut) : (TravOut.empty n).comb out = out := by
  cases out
  simp [TravOut.comb, TravOut.empty]

/-- With an always-succeeding append oracle the loop never aborts: processing
`e :: rest` is the step for `e` followed by the loop on `rest`. -/
theorem traverseEntries_cons (cfg : Config) (cwd : FsPath) (appendOk : Nat → Bool)
    (hA : ∀ m, appendOk m = true) (dirPath : FsPath) (e : Entry) (rest : List Entry) (n : Nat) :
    traverseEntries cfg cwd appendOk dirPath (e :: rest) n =
      (stepEntry cfg cwd appendOk dirPath e n).comb
        (traverseEntries cfg cwd appendOk dirPath rest
          (stepEntry cfg cwd appendOk dirPath e n).nOps) := by
  have hlog : ∀ p r, (logSkippedFile cwd appendOk p r n).ok = true := by
    intro p r
    simp [logSkippedFile, hA n]
  cases e with
  | file name content =>
    rw [traverseEntries.eq_def]
    dsimp only
    rw [stepEntry]
    simp only [Entry.name]
    by_cases hex : isExcluded cfg cwd (dirPath ++ [name]) = true
    · rw [if_pos hex, if_pos hex]
      by_cases hshow : cfg.showExcluded = true
      · rw [if_pos hshow, if_pos hshow, if_pos (hlog _ _)]
      · rw [if_neg hshow, if_neg hshow, comb_empty_left]
        simp [TravOut.empty]
    · rw [if_neg hex, if_neg hex]
      by_cases hext : cfg.includeExtensions.contains (extname name) = true
      · rw [if_pos hext, if_pos hext]
      · rw [if_neg hext, if_neg hext]
        by_cases hshow : cfg.showSkipped = true
        · rw [if_pos hshow, if_pos hshow, if_pos (hlog _ _)]
        · rw [if_neg hshow, if_neg hshow, comb_empty_left]
          simp [TravOut.empty]
  | dir name listing =>
    rw [traverseEntries.eq_def]
    dsimp only
    rw [stepEntry]
    simp only [Entry.name]
    by_cases hex : isExcluded cfg cwd (dirPath ++ [name]) = true
    · rw [if_pos hex, if_pos hex]
      by_cases hshow : cfg.showExcluded = true
      · rw [if_pos hshow, if_pos hshow, if_pos (hlog _ _)]
      · rw [if_neg hshow, if_neg hshow, comb_empty_left]
        simp [TravOut.empty]
    · rw [if_neg hex, if_neg hex]
      by_cases hsr : shouldRecurse cfg (dirPath ++ [name]) = true
      · rw [if_pos hsr, if_pos hsr]
      · rw [if_neg hsr, if_neg hsr, comb_empty_left]
        simp [TravOut.empty]

theorem self_mem_traverseDirectory_dirs (cfg : Config) (cwd : FsPath) (appendOk : Nat → Bool)
    (dirPath : FsPath) (listing : Option (List Entry)) (n : Nat) :
    dirPath ∈ (traverseDirectory cfg cwd appendOk dirPath listing n).dirs := by
  rw [traverseDirectory.eq_def]
  cases listing with
  | none => simp
  | some es =>
    dsimp only
    by_cases hok : (traverseEntries cfg cwd appendOk dirPath es n).ok = true
    · rw [if_pos hok]
      exact List.mem_cons_self _ _
    · rw [if_neg hok]
      exact List.mem_cons_self _ _

theorem entries_complete (cfg : Config) (cwd : FsPath) (appendOk : Nat → Bool)
    (hA : ∀ m, appendOk m = true) :
    ∀ (es : List Entry) (dirPath : FsPath) (n : Nat) (e : Entry), e ∈ es →
      (isExcluded cfg cwd (dirPath ++ [e.name]) = true → cfg.showExcluded = true →
        Record.placeholder (dirPath ++ [e.name]) "Excluded" ∈
          (traverseEntries cfg cwd appendOk dirPath es n).recs) ∧
      (isExcluded cfg cwd (dirPath ++ [e.name]) = false →
        (∀ nm c, e = Entry.file nm c →
           cfg.includeExtensions.contains (extname nm) = false → cfg.showSkipped = true →
           Record.placeholder (dirPath ++ [nm]) "Skipped (non-matching extension)" ∈
             (traverseEntries cfg cwd appendOk dirPath es n).recs) ∧
        (∀ nm c, e = Entry.file nm c → cfg.includeExtensions.contains (extname nm) = true →
           (dirPath ++ [nm]) ∈ (traverseEntries cfg cwd appendOk dirPath es n).reads) ∧
        (∀ nm l, e = Entry.dir nm l → shouldRecurse cfg (dirPath ++ [nm]) = true →
           (dirPath ++ [nm]) ∈ (traverseEntries cfg cwd appendOk dirPath es n).dirs)) := by
  intro es
  induction es with
  | nil => intro dirPath n e he; exact absurd he (List.not_mem_nil e)
  | cons e' rest ih =>
    intro dirPath n e he
    rw [traverseEntries_cons cfg cwd appendOk hA]
    rcases List.mem_cons.mp he with rfl | htail
    · -- e is the head entry: everything comes from its own step
      constructor
      · intro hex hshow
        apply List.mem_append_left
        rw [stepEntry.eq_def]
        dsimp only
        rw [if_pos hex, if_pos hshow, logSkippedFile, if_pos (hA n)]
        exact List.mem_singleton.mpr rfl
      · intro hex
        refine ⟨?_, ?_, ?_⟩
        · rintro nm c rfl hext hshow
          apply List.mem_append_left
          rw [stepEntry]
          simp only [Entry.name] at hex ⊢
          rw [if_neg (by rw [hex]; exact Bool.false_ne_true), if_neg (by rw [hext]; exact Bool.false_ne_true),
            if_pos hshow, logSkippedFile, if_pos (hA n)]
          exact List.mem_singleton.mpr rfl
        · rintro nm c rfl hext
          apply List.mem_append_left
          rw [stepEntry]
          simp only [Entry.name] at hex ⊢
          rw [if_neg (by rw [hex]; exact Bool.false_ne_true), if_pos hext, processFile.eq_def]
          cases c with
          | none => exact List.mem_singleton.mpr rfl
          | some s =>
            dsimp only
            rw [if_pos (hA n)]
            exact List.mem_singleton.mpr rfl
        · rintro nm l rfl hsr
          apply List.mem_append_left
          rw [stepEntry]
          simp only [Entry.name] at hex ⊢
          rw [if_neg (by rw [hex]; exact Bool.false_ne_true), if_pos hsr]
          exact self_mem_traverseDirectory_dirs cfg cwd appendOk (dirPath ++ [nm]) l n
    · -- e is in the tail: everything comes from the recursive loop
      obtain ⟨h1, h2⟩ := ih dirPath (stepEntry cfg cwd appendOk dirPath e' n).nOps e htail
      constructor
      · intro hex hshow
        exact List.mem_append_right _ (h1 hex hshow)
      · intro hex
        obtain ⟨h2a, h2b, h2c⟩ := h2 hex
        refine ⟨?_, ?_, ?_⟩
        · intro nm c hc hext hshow
          exact List.mem_append_right _ (h2a nm c hc hext hshow)
        · intro nm c hc hext
          exact List.mem_append_right _ (h2b nm c hc hext)
        · intro nm l hl hsr
          exact List.mem_append_right _ (h2c nm l hl hsr)

/-- C7: a non-existent or inaccessible scan root makes the run terminate with
exit status 1 (non-zero) before anything else happens: no traversal is
attempted, no output path is written, and the output file keeps whatever
content it had before the run (in particular it is not created and not
truncated), because the accessibility check precedes the truncation. -/
theorem claim_C7_root_inaccessible (cfg : Config) (cwd : FsPath) (appendOk : Nat → Bool)
    (rootPath : FsPath) (prev : Option String) :
    mainRun cfg cwd appendOk rootPath none prev = ⟨1, none, prev, none⟩ ∧
      (mainRun cfg cwd appendOk rootPath none prev).exitCode ≠ 0 := by
  exact ⟨rfl, by simp [mainRun]⟩

/-- C8: whenever the scan root is accessible the run finishes with exit
status 0, for every filesystem shape and every append-failure oracle — in
particular a run whose traversal met only per-entry I/O errors (unlistable
directories, unreadable files, failed appends) still reports success. -/
theorem claim_C8_errors_swallowed (cfg : Config) (cwd : FsPath) (appendOk : Nat → Bool)
    (rootPath : FsPath) (listing : Option (List Entry)) (prev : Option String) :
    (mainRun cfg cwd appendOk rootPath (some listing) prev).exitCode = 0 := by
  rfl

/-- C9: the output artifact after a run is exactly the concatenation of the
rendered records of the traversal, starting from the empty string — the file
is truncated once before any append, so its content after the run does not
depend on its content before the run, and two runs with the same
configuration, working directory, filesystem and append oracle produce
byte-identical output files. -/
theorem claim_C9_truncation (cfg : Config) (cwd : FsPath) (appendOk : Nat → Bool)
    (rootPath : FsPath) (listing : Option (List Entry)) (prev prev' : Option String) :
    (mainRun cfg cwd appendOk rootPath (some listing) prev).outFile =
        some (String.join
          ((traverseDirectory cfg cwd appendOk rootPath listing 0).recs.map (renderRecord cwd))) ∧
      (mainRun cfg cwd appendOk rootPath (some listing) prev).outFile =
        (mainRun cfg cwd appendOk rootPath (some listing) prev').outFile := by
  exact ⟨rfl, rfl⟩

/-- C10: the output artifact is always created at the configured output file
name joined onto the process's current working directory, independently of
the scan root — scanning a directory elsewhere still writes the output into
the directory the process was launched from. -/
theorem claim_C10_output_location (cfg : Config) (cwd : FsPath) (appendOk : Nat → Bool)
    (rootPath rootPath' : FsPath) (listing : Option (List Entry)) (prev : Option String) :
    (mainRun cfg cwd appendOk rootPath (some listing) prev).outPath =
        some (cwd ++ [cfg.outputFile]) ∧
      (mainRun cfg cwd appendOk rootPath (some listing) prev).outPath =
        (mainRun cfg cwd appendOk rootPath' (some listing) prev).outPath := by
  exact ⟨rfl, rfl⟩

/-- C1 counterexample: with the default `node_modules` exclude pattern and
`showExcluded = true`, the path `w/node_modules/lib.js` matches an exclude
pattern (its relative path contains `node_modules`), yet the run emits no
`Excluded` placeholder record for it — only one for `w/node_modules` itself,
because an excluded directory is never entered.  This refutes the claim that
an `Excluded` record is emitted for every matching path iff `showExcluded`
is true. -/
theorem claim_C1_counterexample :
    isExcluded (Config.mk [] ["node_modules"] [".js"] true true "output.sick") ["w"]
        ["w", "node_modules", "lib.js"] = true ∧
      (Config.mk [] ["node_modules"] [".js"] true true "output.sick").showExcluded = true ∧
      (traverseEntries (Config.mk [] ["node_modules"] [".js"] true true "output.sick") ["w"]
          (fun _ => true) ["w"]
          [Entry.dir "node_modules" (some [Entry.file "lib.js" (some "x")])] 0).recs =
        [Record.placeholder ["w", "node_modules"] "Excluded"] ∧
      Record.placeholder ["w", "node_modules", "lib.js"] "Excluded" ∉
        (traverseEntries (Config.mk [] ["node_modules"] [".js"] true true "output.sick") ["w"]
          (fun _ => true) ["w"]
          [Entry.dir "node_modules" (some [Entry.file "lib.js" (some "x")])] 0).recs := by
  refine ⟨by decide, rfl, ?_, ?_⟩ <;>
    simp +decide [traverseEntries, traverseDirectory, logSkippedFile, processFile,
      TravOut.comb, TravOut.empty]

/-- C3 counterexample: the `includeDirs` test matches against the absolute
joined path string, not the relative path.  With `includeDirs = ["home"]`,
working directory `/home/u` and scan root `/home/u`, the directory
`/home/u/lib` has relative path `lib`, which does not contain `"home"` —
the claim therefore predicts no recursion and no records — yet the traversal
does recurse into it (its absolute path `/home/u/lib` contains `"home"`)
and processes `y.js`. -/
theorem claim_C3_counterexample :
    strContains (pathRelative ["home", "u"] ["home", "u", "lib"]) "home" = false ∧
      isExcluded (Config.mk ["home"] [] [".js"] true true "output.sick") ["home", "u"]
        ["home", "u", "lib"] = false ∧
      ["home", "u", "lib"] ∈
        (traverseEntries (Config.mk ["home"] [] [".js"] true true "output.sick") ["home", "u"]
          (fun _ => true) ["home", "u"]
          [Entry.dir "lib" (some [Entry.file "y.js" (some "x")])] 0).dirs ∧
      (traverseEntries (Config.mk ["home"] [] [".js"] true true "output.sick") ["home", "u"]
          (fun _ => true) ["home", "u"]
          [Entry.dir "lib" (some [Entry.file "y.js" (some "x")])] 0).recs =
        [Record.processed ["home", "u", "lib", "y.js"] "x"] := by
  refine ⟨by decide, by decide, ?_, ?_⟩ <;>
    simp +decide [traverseEntries, traverseDirectory, logSkippedFile, processFile,
      TravOut.comb, TravOut.empty]

/-- C4 counterexample: an output-append failure while writing a placeholder
record does abort the remaining siblings.  With `showSkipped = true` and an
oracle failing the first append, the skip-placeholder append for `a.txt`
throws; the loop is abandoned (`ok = false`) and the qualifying sibling
`b.js` is never read and never processed: the traversal result is completely
empty, refuting the claim that a failed append never prevents siblings from
being processed. -/
theorem claim_C4_counterexample :
    (fun n => n != 0) 0 = false ∧
      (traverseEntries (Config.mk [] [] [".js"] true true "output.sick") ["w"]
          (fun n => n != 0) ["w"]
          [Entry.file "a.txt" (some "A"), Entry.file "b.js" (some "B")] 0) =
        ⟨[], [], [], [], 1, false⟩ := by
  refine ⟨rfl, ?_⟩
  simp +decide [traverseEntries, traverseDirectory, logSkippedFile, processFile,
    TravOut.comb, TravOut.empty]

/-- C6 counterexample: with `includeDirs = ["src"]`, the non-excluded file
`w/lib/README.md` has a non-matching extension and `showSkipped = true`, yet
no `SkippedExtension` record appears, because its parent `w/lib` is rejected
by `includeDirs` and the file is never encountered.  This refutes the
claimed iff as stated for every such file. -/
theorem claim_C6_counterexample :
    isExcluded (Config.mk ["src"] [] [".js"] true true "output.sick") ["w"]
        ["w", "lib", "README.md"] = false ∧
      (Config.mk ["src"] [] [".js"] true true "output.sick").includeExtensions.contains
        (extname "README.md") = false ∧
      (Config.mk ["src"] [] [".js"] true true "output.sick").showSkipped = true ∧
      (traverseEntries (Config.mk ["src"] [] [".js"] true true "output.sick") ["w"]
          (fun _ => true) ["w"]
          [Entry.dir "lib" (some [Entry.file "README.md" (some "m")])] 0).recs = [] := by
  refine ⟨by decide, by decide, rfl, ?_⟩
  simp +decide [traverseEntries, traverseDirectory, logSkippedFile, processFile,
    TravOut.comb, TravOut.empty]

/-- C1 (amended): exclude precedence over everything.  In any traversal
(any configuration, so regardless of `includeDirs`, and any oracle):
records that are not `Excluded` placeholders are only ever emitted for paths
none of whose components below the scanned directory match an exclude
pattern; the traversal never recurses into and never reads any path with an
excluded prefix; if `showExcluded` is false no `Excluded` placeholder is ever
emitted; and when appends succeed and `showExcluded` is true, every excluded
entry the loop encounters gets its `Excluded` placeholder record.  (The
original claim's iff holds only for encountered entries: descendants of an
excluded directory are never visited and get no record.) -/
theorem claim_C1_amended (cfg : Config) (cwd : FsPath) (appendOk : Nat → Bool)
    (dirPath : FsPath) (es : List Entry) (n : Nat) :
    (∀ r ∈ (traverseEntries cfg cwd appendOk dirPath es n).recs, r.isExcludedRec = false →
        ∀ q, q <+: r.path → dirPath.length < q.length → isExcluded cfg cwd q = false) ∧
      (∀ q ∈ (traverseEntries cfg cwd appendOk dirPath es n).dirs,
        ∀ q', q' <+: q → dirPath.length < q'.length → isExcluded cfg cwd q' = false) ∧
      (∀ p ∈ (traverseEntries cfg cwd appendOk dirPath es n).reads,
        ∀ q, q <+: p → dirPath.length < q.length → isExcluded cfg cwd q = false) ∧
      (cfg.showExcluded = false →
        ∀ r ∈ (traverseEntries cfg cwd appendOk dirPath es n).recs, r.isExcludedRec = false) ∧
      ((∀ m, appendOk m = true) → cfg.showExcluded = true →
        ∀ e ∈ es, isExcluded cfg cwd (dirPath ++ [e.name]) = true →
          Record.placeholder (dirPath ++ [e.name]) "Excluded" ∈
            (traverseEntries cfg cwd appendOk dirPath es n).recs) := by
  obtain ⟨hrecs, hdirs, hreads⟩ := entries_sound cfg cwd appendOk dirPath es n
  refine ⟨?_, ?_, ?_, ?_, ?_⟩
  · intro r hr hnotex q hq hlen
    have hs := hrecs r hr
    cases r with
    | processed p c =>
      exact hs.2.2.1 q hq hlen
    | placeholder p reason =>
      rcases hs.2.2 with ⟨hreason, _, _, _⟩ | ⟨_, _, hcb, _⟩
      · rw [Record.isExcludedRec, hreason] at hnotex
        simp at hnotex
      · exact hcb q hq hlen
  · intro q hq q' hq' hlen
    exact (hdirs q hq).2.2.1 q' hq' hlen
  · intro p hp q hq hlen
    exact (hreads p hp).2.2.1 q hq hlen
  · intro hshow r hr
    have hs := hrecs r hr
    cases r with
    | processed p c => rfl
    | placeholder p reason =>
      rcases hs.2.2 with ⟨_, _, hse, _⟩ | ⟨hreason, _, _, _⟩
      · rw [hshow] at hse; exact absurd hse (by simp)
      · rw [Record.isExcludedRec, hreason]
        decide
  · intro hA hshow e he hex
    exact ((entries_complete cfg cwd appendOk hA es dirPath n e he).1) hex hshow

/-- C1 witness: the amended completeness part instantiated at a concrete
excluded directory entry. -/
theorem claim_C1_amended_witness :
    Record.placeholder ["w", "node_modules"] "Excluded" ∈
      (traverseEntries (Config.mk [] ["node_modules"] [".js"] true true "output.sick") ["w"]
        (fun _ => true) ["w"]
        [Entry.dir "node_modules" (some [Entry.file "lib.js" (some "x")])] 0).recs := by
  have h := (claim_C1_amended (Config.mk [] ["node_modules"] [".js"] true true "output.sick")
    ["w"] (fun _ => true) ["w"]
    [Entry.dir "node_modules" (some [Entry.file "lib.js" (some "x")])] 0).2.2.2.2
  exact h (fun _ => rfl) rfl (Entry.dir "node_modules" (some [Entry.file "lib.js" (some "x")]))
    (List.mem_singleton.mpr rfl) (by decide)

/-- C3 (amended): a non-excluded directory entry encountered by the loop is
recursed into iff `includeDirs` is empty or the directory's absolute joined
path string (not its relative path) contains some `includeDirs` member as a
substring; a directory rejected by this test is skipped silently — the
traversal of it is the traversal with it removed, so it produces no output
record of any kind; and every directory that is recursed into passed the
test and is not excluded. -/
theorem claim_C3_amended (cfg : Config) (cwd : FsPath) (appendOk : Nat → Bool)
    (dirPath : FsPath) (nm : String) (listing : Option (List Entry)) (rest es : List Entry)
    (n : Nat) :
    (isExcluded cfg cwd (dirPath ++ [nm]) = false →
        shouldRecurse cfg (dirPath ++ [nm]) = false →
        traverseEntries cfg cwd appendOk dirPath (Entry.dir nm listing :: rest) n =
          traverseEntries cfg cwd appendOk dirPath rest n) ∧
      (isExcluded cfg cwd (dirPath ++ [nm]) = false →
        shouldRecurse cfg (dirPath ++ [nm]) = true →
        (dirPath ++ [nm]) ∈
          (traverseEntries cfg cwd appendOk dirPath (Entry.dir nm listing :: rest) n).dirs) ∧
      (∀ q ∈ (traverseEntries cfg cwd appendOk dirPath es n).dirs,
        shouldRecurse cfg q = true ∧ isExcluded cfg cwd q = false) := by
  refine ⟨?_, ?_, ?_⟩
  · intro hex hsr
    rw [traverseEntries.eq_def]
    dsimp only
    rw [if_neg (by rw [hex]; exact Bool.false_ne_true),
      if_neg (by rw [hsr]; exact Bool.false_ne_true)]
  · intro hex hsr
    rw [traverseEntries.eq_def]
    dsimp only
    rw [if_neg (by rw [hex]; exact Bool.false_ne_true), if_pos hsr]
    rw [TravOut.comb]
    exact List.mem_append_left _
      (self_mem_traverseDirectory_dirs cfg cwd appendOk (dirPath ++ [nm]) listing n)
  · intro q hq
    obtain ⟨_, _, hcb, hsr⟩ := (entries_sound cfg cwd appendOk dirPath es n).2.1 q hq
    exact ⟨hsr, hcb q List.prefix_rfl (by assumption)⟩

/-- C3 witness: the amended recursion criterion instantiated at a concrete
directory entry accepted via its absolute path. -/
theorem claim_C3_amended_witness :
    ["home", "u", "lib"] ∈
      (traverseEntries (Config.mk ["home"] [] [".js"] true true "output.sick") ["home", "u"]
        (fun _ => true) ["home", "u"]
        [Entry.dir "lib" (some [Entry.file "y.js" (some "x")])] 0).dirs := by
  have h := (claim_C3_amended (Config.mk ["home"] [] [".js"] true true "output.sick")
    ["home", "u"] (fun _ => true) ["home", "u"] "lib"
    (some [Entry.file "y.js" (some "x")]) [] [] 0).2.1
  exact h (by decide) (by decide)

/-- C4 (amended): per-entry failure handling.  A directory-listing failure
is logged as a diagnostic and the siblings continue; an individual file read
failure, and an append failure while writing a processed record, are caught
inside `processFile`, logged, and the siblings continue; but an append
failure while writing a placeholder record (`Excluded` or
`SkippedExtension`) escapes `logSkippedFile`: the remaining entries of the
current directory are abandoned, and the enclosing directory's catch logs a
directory-traversal error and returns normally, so ancestors continue and
the run still completes. -/
theorem claim_C4_amended (cfg : Config) (cwd : FsPath) (appendOk : Nat → Bool)
    (dirPath : FsPath) (nm : String) (c : String) (e : Entry) (rest : List Entry) (n : Nat) :
    (isExcluded cfg cwd (dirPath ++ [nm]) = false → shouldRecurse cfg (dirPath ++ [nm]) = true →
        traverseEntries cfg cwd appendOk dirPath (Entry.dir nm none :: rest) n =
          TravOut.comb ⟨[], [Diag.errorDir (dirPath ++ [nm])], [], [dirPath ++ [nm]], n, true⟩
            (traverseEntries cfg cwd appendOk dirPath rest n)) ∧
      (isExcluded cfg cwd (dirPath ++ [nm]) = false →
        cfg.includeExtensions.contains (extname nm) = true →
        traverseEntries cfg cwd appendOk dirPath (Entry.file nm none :: rest) n =
          TravOut.comb ⟨[], [Diag.errorFile (dirPath ++ [nm])], [dirPath ++ [nm]], [], n, true⟩
            (traverseEntries cfg cwd appendOk dirPath rest n)) ∧
      (appendOk n = false → isExcluded cfg cwd (dirPath ++ [nm]) = false →
        cfg.includeExtensions.contains (extname nm) = true →
        traverseEntries cfg cwd appendOk dirPath (Entry.file nm (some c) :: rest) n =
          TravOut.comb ⟨[], [Diag.errorFile (dirPath ++ [nm])], [dirPath ++ [nm]], [], n + 1, true⟩
            (traverseEntries cfg cwd appendOk dirPath rest (n + 1))) ∧
      (appendOk n = false → isExcluded cfg cwd (dirPath ++ [e.name]) = true →
        cfg.showExcluded = true →
        traverseEntries cfg cwd appendOk dirPath (e :: rest) n = ⟨[], [], [], [], n + 1, false⟩) ∧
      (appendOk n = false → isExcluded cfg cwd (dirPath ++ [e.name]) = true →
        cfg.showExcluded = true →
        traverseDirectory cfg cwd appendOk dirPath (some (e :: rest)) n =
          ⟨[], [Diag.errorDir dirPath], [], [dirPath], n + 1, true⟩) := by
  have h4 : appendOk n = false → isExcluded cfg cwd (dirPath ++ [e.name]) = true →
      cfg.showExcluded = true →
      traverseEntries cfg cwd appendOk dirPath (e :: rest) n = ⟨[], [], [], [], n + 1, false⟩ := by
    intro hfail hex hshow
    cases e with
    | file name content =>
      rw [traverseEntries.eq_def]
      dsimp only
      simp only [Entry.name] at hex
      rw [if_pos hex, if_pos hshow, logSkippedFile,
        if_neg (by rw [hfail]; exact Bool.false_ne_true)]
      simp [hfail]
    | dir name listing =>
      rw [traverseEntries.eq_def]
      dsimp only
      simp only [Entry.name] at hex
      rw [if_pos hex, if_pos hshow, logSkippedFile,
        if_neg (by rw [hfail]; exact Bool.false_ne_true)]
      simp [hfail]
  refine ⟨?_, ?_, ?_, h4, ?_⟩
  · intro hex hsr
    rw [traverseEntries.eq_def]
    dsimp only
    rw [if_neg (by rw [hex]; exact Bool.false_ne_true), if_pos hsr]
    simp only [traverseDirectory]
  · intro hex hext
    rw [traverseEntries.eq_def]
    dsimp only
    rw [if_neg (by rw [hex]; exact Bool.false_ne_true), if_pos hext]
    rfl
  · intro hfail hex hext
    rw [traverseEntries.eq_def]
    dsimp only
    rw [if_neg (by rw [hex]; exact Bool.false_ne_true), if_pos hext, processFile.eq_def]
    dsimp only
    rw [if_neg (by rw [hfail]; exact Bool.false_ne_true)]
  · intro hfail hex hshow
    rw [traverseDirectory.eq_def]
    dsimp only
    rw [h4 hfail hex hshow]
    simp

/-- C4 witness: the amended read-failure part instantiated at a concrete
unreadable file with a processable sibling. -/
theorem claim_C4_amended_witness :
    traverseEntries (Config.mk [] [] [".js"] true true "output.sick") ["w"] (fun _ => false)
        ["w"] [Entry.file "a.js" none, Entry.file "b.js" (some "B")] 0 =
      TravOut.comb ⟨[], [Diag.errorFile ["w", "a.js"]], [["w", "a.js"]], [], 0, true⟩
        (traverseEntries (Config.mk [] [] [".js"] true true "output.sick") ["w"] (fun _ => false)
          ["w"] [Entry.file "b.js" (some "B")] 0) := by
  have h := (claim_C4_amended (Config.mk [] [] [".js"] true true "output.sick") ["w"]
    (fun _ => false) ["w"] "a.js" "c" (Entry.file "x" none)
    [Entry.file "b.js" (some "B")] 0).2.1
  exact h (by decide) (by decide)

/-- C5: every record appended to the output artifact has one of exactly two
byte formats — a processed record is
`"\n\n--- File: <rel> ---\n\n<content>\n"` and a placeholder record is
`"\n\n--- File: <rel> ---\n(<reason>)\n"` with reason text `Excluded` or
`Skipped (non-matching extension)` — where `<rel>` is the path relative to
the process's working directory; and the output artifact is exactly the
concatenation of these rendered records. -/
theorem claim_C5_record_formats (cfg : Config) (cwd : FsPath) (appendOk : Nat → Bool)
    (rootPath : FsPath) (listing : Option (List Entry)) (prev : Option String) :
    (mainRun cfg cwd appendOk rootPath (some listing) prev).outFile =
        some (String.join ((traverseDirectory cfg cwd appendOk rootPath listing 0).recs.map
          (renderRecord cwd))) ∧
      ∀ r ∈ (traverseDirectory cfg cwd appendOk rootPath listing 0).recs,
        (∃ p c, r = Record.processed p c ∧
          renderRecord cwd r =
            "\n\n--- File: " ++ pathRelative cwd p ++ " ---\n\n" ++ c ++ "\n") ∨
        (∃ p reason, r = Record.placeholder p reason ∧
          (reason = "Excluded" ∨ reason = "Skipped (non-matching extension)") ∧
          renderRecord cwd r =
            "\n\n--- File: " ++ pathRelative cwd p ++ " ---\n(" ++ reason ++ ")\n") := by
  refine ⟨rfl, ?_⟩
  intro r hr
  have hs := (dir_sound cfg cwd appendOk rootPath listing 0).1 r hr
  cases r with
  | processed p c => exact Or.inl ⟨p, c, rfl, rfl⟩
  | placeholder p reason =>
    rcases hs.2.2 with ⟨hreason, _, _, _⟩ | ⟨hreason, _, _, _⟩
    · exact Or.inr ⟨p, reason, rfl, Or.inl hreason, rfl⟩
    · exact Or.inr ⟨p, reason, rfl, Or.inr hreason, rfl⟩

/-- C5 witness: the format disjunction instantiated at a concrete processed
record of a concrete run. -/
theorem claim_C5_record_formats_witness :
    (∃ p c, Record.processed ["w", "a.js"] "A" = Record.processed p c ∧
      renderRecord ["w"] (Record.processed ["w", "a.js"] "A") =
        "\n\n--- File: " ++ pathRelative ["w"] p ++ " ---\n\n" ++ c ++ "\n") ∨
    (∃ p reason, Record.processed ["w", "a.js"] "A" = Record.placeholder p reason ∧
      (reason = "Excluded" ∨ reason = "Skipped (non-matching extension)") ∧
      renderRecord ["w"] (Record.processed ["w", "a.js"] "A") =
        "\n\n--- File: " ++ pathRelative ["w"] p ++ " ---\n(" ++ reason ++ ")\n") := by
  have h := (claim_C5_record_formats (Config.mk [] [] [".js"] true true "output.sick") ["w"]
    (fun _ => true) ["w"] (some [Entry.file "a.js" (some "A")]) none).2
  apply h (Record.processed ["w", "a.js"] "A")
  simp +decide [traverseDirectory, traverseEntries, logSkippedFile, processFile,
    TravOut.comb, TravOut.empty]

/-- C6 (amended): for every file entry the loop actually encounters that is
not excluded and whose extension is not in `includeExtensions` (exact,
case-sensitive, dot included), a `SkippedExtension` placeholder appears iff
`showSkipped` is true (when appends succeed); if `showSkipped` is false no
`SkippedExtension` record is ever emitted; a record about a non-excluded
path with non-matching extension can only be a `SkippedExtension`
placeholder (so such a file gets no record at all when `showSkipped` is
false); and no file with a non-matching extension is ever read.  (The
original iff fails for files inside directories never recursed into.) -/
theorem claim_C6_amended (cfg : Config) (cwd : FsPath) (appendOk : Nat → Bool)
    (dirPath : FsPath) (es : List Entry) (n : Nat) :
    ((∀ m, appendOk m = true) → ∀ nm c, Entry.file nm c ∈ es →
        isExcluded cfg cwd (dirPath ++ [nm]) = false →
        cfg.includeExtensions.contains (extname nm) = false → cfg.showSkipped = true →
        Record.placeholder (dirPath ++ [nm]) "Skipped (non-matching extension)" ∈
          (traverseEntries cfg cwd appendOk dirPath es n).recs) ∧
      (cfg.showSkipped = false →
        ∀ r ∈ (traverseEntries cfg cwd appendOk dirPath es n).recs, r.isSkippedRec = false) ∧
      (∀ r ∈ (traverseEntries cfg cwd appendOk dirPath es n).recs,
        isExcluded cfg cwd r.path = false →
        cfg.includeExtensions.contains (extname (basename r.path)) = false →
        r.isSkippedRec = true) ∧
      (∀ p ∈ (traverseEntries cfg cwd appendOk dirPath es n).reads,
        cfg.includeExtensions.contains (extname (basename p)) = true) := by
  obtain ⟨hrecs, hdirs, hreads⟩ := entries_sound cfg cwd appendOk dirPath es n
  refine ⟨?_, ?_, ?_, ?_⟩
  · intro hA nm c hmem hex hext hshow
    exact ((entries_complete cfg cwd appendOk hA es dirPath n
      (Entry.file nm c) hmem).2 hex).1 nm c rfl hext hshow
  · intro hshow r hr
    have hs := hrecs r hr
    cases r with
    | processed p c => rfl
    | placeholder p reason =>
      rcases hs.2.2 with ⟨hreason, _, _, _⟩ | ⟨_, hsk, _, _⟩
      · rw [Record.isSkippedRec, hreason]; decide
      · rw [hshow] at hsk; exact absurd hsk (by simp)
  · intro r hr hex hext
    have hs := hrecs r hr
    cases r with
    | processed p c =>
      rw [Record.path] at hex hext
      exact absurd hs.2.2.2 (by rw [hext]; exact Bool.false_ne_true)
    | placeholder p reason =>
      rw [Record.path] at hex hext
      rcases hs.2.2 with ⟨_, hpex, _, _⟩ | ⟨hreason, _, _, _⟩
      · rw [hex] at hpex; exact absurd hpex (by simp)
      · rw [Record.isSkippedRec, hreason]; decide
  · intro p hp
    exact (hreads p hp).2.2.2

/-- C6 witness: the amended completeness part instantiated at a concrete
skipped file. -/
theorem claim_C6_amended_witness :
    Record.placeholder ["w", "README.md"] "Skipped (non-matching extension)" ∈
      (traverseEntries (Config.mk [] [] [".js"] true true "output.sick") ["w"]
        (fun _ => true) ["w"] [Entry.file "README.md" (some "m")] 0).recs := by
  have h := (claim_C6_amended (Config.mk [] [] [".js"] true true "output.sick") ["w"]
    (fun _ => true) ["w"] [Entry.file "README.md" (some "m")] 0).1
  exact h (fun _ => rfl) "README.md" (some "m") (List.mem_singleton.mpr rfl)
    (by decide) (by decide) rfl
